import Mathlib

/-!
Shallow embedding of the project-management API core
(`src/validators/projects.validator.js`, `src/data/projects.store.js`,
and the project service) in Lean 4.

Modelling conventions:
- JS strings are Lean `String`s; absent (`undefined`/`null`) request fields
  are `Option String` with `none` for absent.
- JS string truthiness (`if (s)`) is `truthy : Option String → Bool`
  (present and non-empty).
- JS `Date` parsing is modelled on plain `YYYY-MM-DD` ISO date strings
  (the grammar exercised by the API); the parse result is a numeric key
  whose order agrees with chronological order on that grammar.
- JS case-insensitive matching (`toLowerCase`) is modelled with ASCII
  lowercasing on the character list of the string.
- `Array.prototype.sort` with a comparator is stable (ES2019); a stable
  sort is uniquely determined by the comparator preorder, so it is
  embedded as `List.insertionSort` over the comparator's "may precede"
  relation.
- Exceptions (`AppError`) become `Except AppError` results; async wrappers
  are dropped (every operation is a pure state transformer).
-/

namespace ProjectAPI

/-- JS truthiness of an optional string request field: present and non-empty. -/
def truthy : Option String → Bool
  | none => false
  | some s => !s.isEmpty

/-- Test that `needle` is a prefix of `hay` (character lists). -/
def seqStarts : List Char → List Char → Bool
  | [], _ => true
  | _ :: _, [] => false
  | a :: as, b :: bs => a = b && seqStarts as bs

/-- JS `String.prototype.includes`: `needle` occurs contiguously in `hay`. -/
def seqIncludes (needle : List Char) : List Char → Bool
  | [] => needle.isEmpty
  | c :: cs => seqStarts needle (c :: cs) || seqIncludes needle cs

/-- JS `toLowerCase` (ASCII range) on the characters of a string. -/
def lowerChars (s : String) : List Char := s.toList.map Char.toLower

/-- Character-code list of a string; JS `<`/`>` on strings is the
lexicographic order on these code lists. -/
def strKey (s : String) : List Nat := s.toList.map Char.toNat

/-- JS `String.prototype.trim` (ASCII whitespace at both ends). -/
def jsTrim (s : String) : String :=
  String.mk (((s.toList.dropWhile Char.isWhitespace).reverse.dropWhile Char.isWhitespace).reverse)

/-- Numeric value of a decimal digit character. -/
def digitVal (c : Char) : Option Nat :=
  if c.isDigit then some (c.toNat - 48) else none

/-- JS `new Date(s)` validity and ordering, modelled on plain `YYYY-MM-DD`
ISO date strings: returns `some key` when the string is a well-formed date
in that grammar, `none` otherwise; `key` orders the same way as the epoch
time of the date. -/
def parseISODate (s : String) : Option Nat :=
  match s.toList with
  | [y1, y2, y3, y4, h1, m1, m2, h2, d1, d2] =>
    match digitVal y1, digitVal y2, digitVal y3, digitVal y4,
          digitVal m1, digitVal m2, digitVal d1, digitVal d2 with
    | some a, some b, some c, some d, some m, some n, some p, some q =>
      if h1 = '-' ∧ h2 = '-' then
        let month := m * 10 + n
        let day := p * 10 + q
        if 1 ≤ month ∧ month ≤ 12 ∧ 1 ≤ day ∧ day ≤ 31 then
          some (((((a * 10 + b) * 10 + c) * 10 + d) * 100 + month) * 100 + day)
        else none
      else none
    | _, _, _, _, _, _, _, _ => none
  | _ => none

/-- Function `isValidISODate` from `projects.validator.js`: the string parses as a
valid date (not `NaN`). -/
def isValidISODate (v : String) : Bool := (parseISODate v).isSome

/-- Error class `AppError` from `src/utils/errors.js`, as constructed at every call
site: `new AppError(message, statusCode, code)`. -/
structure AppError where
  message : String
  statusCode : Nat
  code : String
deriving Repr, DecidableEq

/-- A stored project record (the object built in `Store.create`). -/
structure Project where
  id : String
  name : String
  clientName : String
  status : String
  startDate : String
  endDate : Option String
  isDeleted : Bool
  createdAt : String
  updatedAt : String
deriving Repr, DecidableEq

/-- Sanitized project data returned by `validateCreateProject`. -/
structure ProjectData where
  name : String
  clientName : String
  status : String
  startDate : String
  endDate : Option String
deriving Repr, DecidableEq

/-- Raw body of a create request (each field a string or absent). -/
structure CreateBody where
  name : Option String := none
  clientName : Option String := none
  status : Option String := none
  startDate : Option String := none
  endDate : Option String := none
deriving Repr, DecidableEq

/-- Raw body of a status-update request. -/
structure StatusBody where
  status : Option String := none
deriving Repr, DecidableEq

/-- Query parameters accepted by `findAll` / `listProjects`. -/
structure ListQuery where
  status : Option String := none
  search : Option String := none
  sort : Option String := none
  order : Option String := none
deriving Repr, DecidableEq

/-- Field updates passed to `Store.update` (the two shapes used by the
service: `{ status }` and `{ isDeleted: true }`). -/
structure UpdateFields where
  status : Option String := none
  isDeleted : Option Bool := none
deriving Repr, DecidableEq

/-- Constant `VALID_STATUSES` from `projects.validator.js`. -/
def VALID_STATUSES : List String := ["active", "on_hold", "completed"]

/-- JS `x || null` on an optional string field. -/
def orNull (v : Option String) : Option String :=
  if truthy v then v else none

/-- Function `create` from `projects.store.js`: build the record (with
`status || 'active'`, `endDate || null`, `isDeleted: false`,
`createdAt = updatedAt = now`) and append it. `freshId` stands for
`randomUUID()` and `now` for `new Date().toISOString()`. -/
def Store.create (projects : List Project) (projectData : ProjectData)
    (freshId now : String) : Project × List Project :=
  let project : Project :=
    { id := freshId
      name := projectData.name
      clientName := projectData.clientName
      status := if projectData.status.isEmpty then "active" else projectData.status
      startDate := projectData.startDate
      endDate := orNull projectData.endDate
      isDeleted := false
      createdAt := now
      updatedAt := now }
  (project, projects ++ [project])

/-- Function `findById` from `projects.store.js`: first record with this id,
without filtering by `isDeleted`. -/
def Store.findById (projects : List Project) (id : String) : Option Project :=
  projects.find? (fun p => p.id == id)

/-- Comparator of `findAll`'s sort step, as the "may precede" boolean
relation induced by the JS comparator (`cmp a b <= 0`). -/
def findAllLe (sortField order : String) (a b : Project) : Bool :=
  let aVal := if sortField = "startDate" then strKey a.startDate else strKey a.createdAt
  let bVal := if sortField = "startDate" then strKey b.startDate else strKey b.createdAt
  if order = "asc" then decide (aVal ≤ bVal) else decide (bVal ≤ aVal)

/-- Function `findAll` from `projects.store.js`: drop soft-deleted records, apply
the optional status and case-insensitive search filters, then stably sort
by the requested field (unknown fields fall back to `createdAt`; default
order `desc`). -/
def Store.findAll (projects : List Project) (query : ListQuery) : List Project :=
  let sort := query.sort.getD "createdAt"
  let order := query.order.getD "desc"
  let r1 := projects.filter (fun p => !p.isDeleted)
  let r2 := if truthy query.status then r1.filter (fun p => p.status == query.status.getD "") else r1
  let r3 :=
    if truthy query.search then
      let term := lowerChars (query.search.getD "")
      r2.filter (fun p => seqIncludes term (lowerChars p.name) || seqIncludes term (lowerChars p.clientName))
    else r2
  let sortField := if sort = "createdAt" ∨ sort = "startDate" then sort else "createdAt"
  List.insertionSort (fun a b => findAllLe sortField order a b = true) r3

/-- Merge the given update fields into a record, bumping `updatedAt`. -/
def applyUpdates (p : Project) (u : UpdateFields) (now : String) : Project :=
  { p with
    status := u.status.getD p.status
    isDeleted := u.isDeleted.getD p.isDeleted
    updatedAt := now }

/-- Function `update` from `projects.store.js`: merge `updates` into the first
record with this id (bumping `updatedAt` to `now`); `none` if the id is
unknown. -/
def Store.update (id : String) (u : UpdateFields) (now : String) :
    List Project → Option (Project × List Project)
  | [] => none
  | p :: ps =>
    if p.id = id then
      some (applyUpdates p u now, applyUpdates p u now :: ps)
    else
      match Store.update id u now ps with
      | none => none
      | some (q, qs) => some (q, p :: qs)

/-- The error list accumulated by `validateCreateProject` (same rule
order and messages as the source). -/
def createErrors (body : CreateBody) : List String :=
  (if !truthy body.name || jsTrim (body.name.getD "") == "" then
      ["name is required and must be a non-empty string"] else []) ++
  (if !truthy body.clientName || jsTrim (body.clientName.getD "") == "" then
      ["clientName is required and must be a non-empty string"] else []) ++
  (if body.status.isSome && !VALID_STATUSES.contains (body.status.getD "") then
      ["status must be one of: active, on_hold, completed"] else []) ++
  (if !truthy body.startDate then ["startDate is required"]
   else if !isValidISODate (body.startDate.getD "") then
      ["startDate must be a valid ISO date string"] else []) ++
  (match body.endDate with
   | none => []
   | some e =>
     if !isValidISODate e then ["endDate must be a valid ISO date string"]
     else if truthy body.startDate && isValidISODate (body.startDate.getD "") &&
             decide ((parseISODate e).getD 0 < (parseISODate (body.startDate.getD "")).getD 0) then
       ["endDate cannot be before startDate"]
     else [])

/-- Function `validateCreateProject` from `projects.validator.js`: collect all
violations; on any, throw one aggregated `VALIDATION_ERROR`; otherwise
return the sanitized (whitelisted) fields. -/
def validateCreateProject (body : CreateBody) : Except AppError ProjectData :=
  let errors := createErrors body
  if errors.isEmpty then
    .ok
      { name := jsTrim (body.name.getD "")
        clientName := jsTrim (body.clientName.getD "")
        status := if truthy body.status then body.status.getD "" else "active"
        startDate := body.startDate.getD ""
        endDate := orNull body.endDate }
  else
    .error { message := String.intercalate "; " errors, statusCode := 400, code := "VALIDATION_ERROR" }

/-- Function `validateStatusUpdate` from `projects.validator.js`. -/
def validateStatusUpdate (body : StatusBody) : Except AppError String :=
  if !truthy body.status || !VALID_STATUSES.contains (body.status.getD "") then
    .error { message := "status is required and must be one of: active, on_hold, completed"
             statusCode := 400
             code := "VALIDATION_ERROR" }
  else
    .ok (body.status.getD "")

/-- Constant `ALLOWED_TRANSITIONS` from the project service: explicit allowlist,
`completed` terminal; lookup of any other key is `undefined`. -/
def ALLOWED_TRANSITIONS (status : String) : Option (List String) :=
  if status = "active" then some ["on_hold", "completed"]
  else if status = "on_hold" then some ["active", "completed"]
  else if status = "completed" then some []
  else none

/-- The 404 error thrown by `getProjectById`. -/
def notFoundError (id : String) : AppError :=
  { message := "Project with id \x27" ++ id ++ "\x27 not found"
    statusCode := 404
    code := "PROJECT_NOT_FOUND" }

/-- The 400 error thrown for a disallowed status transition. -/
def invalidTransitionError (currentStatus newStatus : String) : AppError :=
  { message := "Cannot transition from \x27" ++ currentStatus ++ "\x27 to \x27" ++ newStatus ++ "\x27"
    statusCode := 400
    code := "INVALID_STATUS_TRANSITION" }

/-- Function `getProjectById` from the project service: 404 when the id resolves
to no record or to a soft-deleted one. -/
def getProjectById (projects : List Project) (id : String) : Except AppError Project :=
  match Store.findById projects id with
  | none => .error (notFoundError id)
  | some project =>
    if project.isDeleted then .error (notFoundError id) else .ok project

/-- Function `createProject` from the project service. -/
def createProject (projects : List Project) (body : CreateBody) (freshId now : String) :
    Except AppError (Project × List Project) :=
  match validateCreateProject body with
  | .error e => .error e
  | .ok projectData => .ok (Store.create projects projectData freshId now)

/-- Function `listProjects` from the project service: validate the `status`,
`sort` and `order` query parameters (when truthy), then delegate to
`Store.findAll`. -/
def listProjects (projects : List Project) (query : ListQuery) :
    Except AppError (List Project) :=
  if truthy query.status && !VALID_STATUSES.contains (query.status.getD "") then
    .error { message := "Invalid status filter: " ++ query.status.getD "" ++
                        ". Must be one of: active, on_hold, completed"
             statusCode := 400, code := "VALIDATION_ERROR" }
  else if truthy query.sort && !(["createdAt", "startDate"].contains (query.sort.getD "")) then
    .error { message := "Invalid sort field: " ++ query.sort.getD "" ++
                        ". Must be one of: createdAt, startDate"
             statusCode := 400, code := "VALIDATION_ERROR" }
  else if truthy query.order && !(["asc", "desc"].contains (query.order.getD "")) then
    .error { message := "Invalid order: " ++ query.order.getD "" ++
                        ". Must be \x27asc\x27 or \x27desc\x27"
             statusCode := 400, code := "VALIDATION_ERROR" }
  else
    .ok (Store.findAll projects
      { status := query.status, search := query.search, sort := query.sort, order := query.order })

/-- Function `updateProjectStatus` from the project service: validate the body,
fetch the record (404 on missing/deleted), no-op on same status, check
the transition allowlist, then persist through `Store.update`.
(The `none` arm of the final match is unreachable: `getProjectById`
succeeded, so the id is present in the store.) -/
def updateProjectStatus (projects : List Project) (id : String) (body : StatusBody)
    (now : String) : Except AppError (Project × List Project) :=
  match validateStatusUpdate body with
  | .error e => .error e
  | .ok newStatus =>
    match getProjectById projects id with
    | .error e => .error e
    | .ok project =>
      if project.status = newStatus then
        .ok (project, projects)
      else
        match ALLOWED_TRANSITIONS project.status with
        | none => .error (invalidTransitionError project.status newStatus)
        | some allowed =>
          if !allowed.contains newStatus then
            .error (invalidTransitionError project.status newStatus)
          else
            match Store.update id { status := some newStatus } now projects with
            | some (updated, projects2) => .ok (updated, projects2)
            | none => .ok (project, projects)

/-- Function `deleteProject` from the project service: require a successful
`getProjectById`, then set `isDeleted` through `Store.update`.
(The `none` arm is unreachable, as in `updateProjectStatus`.) -/
def deleteProject (projects : List Project) (id : String) (now : String) :
    Except AppError (List Project) :=
  match getProjectById projects id with
  | .error e => .error e
  | .ok _ =>
    match Store.update id { isDeleted := some true } now projects with
    | some (_, projects2) => .ok projects2
    | none => .ok projects

/-- One service operation, with its external inputs (`freshId` for
`randomUUID()`, `now` for the clock) made explicit. -/
inductive Op where
  | createOp (body : CreateBody) (freshId now : String)
  | listOp (query : ListQuery)
  | getOp (id : String)
  | statusOp (id : String) (body : StatusBody) (now : String)
  | deleteOp (id : String) (now : String)

/-- The store state after one service operation (reads and failed
operations leave the state unchanged). -/
def applyOp (projects : List Project) : Op → List Project
  | .createOp body freshId now =>
    match createProject projects body freshId now with
    | .ok (_, projects2) => projects2
    | .error _ => projects
  | .listOp _ => projects
  | .getOp _ => projects
  | .statusOp id body now =>
    match updateProjectStatus projects id body now with
    | .ok (_, projects2) => projects2
    | .error _ => projects
  | .deleteOp id now =>
    match deleteProject projects id now with
    | .ok projects2 => projects2
    | .error _ => projects

/-- The store state after a sequence of service operations. -/
def runOps (projects : List Project) (ops : List Op) : List Project :=
  ops.foldl applyOp projects

/-! Sample records used to instantiate theorems with hypotheses. -/

/-- A stored, non-deleted record in status `active`. -/
def sampleActive : Project :=
  { id := "p1", name := "Website", clientName := "Acme", status := "active",
    startDate := "2026-01-15", endDate := none, isDeleted := false,
    createdAt := "2026-01-01T00:00:00.000Z", updatedAt := "2026-01-01T00:00:00.000Z" }

/-- A stored, non-deleted record in status `completed`. -/
def sampleCompleted : Project := { sampleActive with id := "p2", status := "completed" }

/-- A stored, soft-deleted record. -/
def sampleDeleted : Project := { sampleActive with id := "p3", isDeleted := true }

/-! Helper lemmas about the store operations. -/

theorem getProjectById_eq_ok (projects : List Project) (id : String) (p : Project) :
    getProjectById projects id = .ok p ↔
      Store.findById projects id = some p ∧ p.isDeleted = false := by
  unfold getProjectById
  cases h : Store.findById projects id with
  | none => simp
  | some q =>
    by_cases hd : q.isDeleted
    · simp only [hd, if_true]
      constructor
      · intro h'; cases h'
      · rintro ⟨hq, hpd⟩
        cases hq
        rw [hd] at hpd
        cases hpd
    · simp only [hd, if_false]
      constructor
      · intro h'
        cases h'
        exact ⟨rfl, Bool.not_eq_true _ ▸ hd⟩
      · rintro ⟨hq, -⟩
        cases hq
        rfl

theorem getProjectById_eq_err (projects : List Project) (id : String) (e : AppError) :
    getProjectById projects id = .error e ↔
      e = notFoundError id ∧
        (Store.findById projects id = none ∨
          ∃ p, Store.findById projects id = some p ∧ p.isDeleted = true) := by
  unfold getProjectById
  cases h : Store.findById projects id with
  | none =>
    constructor
    · intro h'; cases h'; exact ⟨rfl, Or.inl rfl⟩
    · rintro ⟨rfl, -⟩; rfl
  | some q =>
    by_cases hd : q.isDeleted
    · simp only [hd, if_true]
      constructor
      · intro h'; cases h'; exact ⟨rfl, Or.inr ⟨q, rfl, hd⟩⟩
      · rintro ⟨rfl, -⟩; rfl
    · simp only [hd, if_false]
      constructor
      · intro h'; cases h'
      · rintro ⟨-, hcase | ⟨p, hp, hdel⟩⟩
        · cases hcase
        · cases hp; rw [hdel] at hd; cases hd rfl

/-- Function `Store.update` acts on exactly the record `Store.findById` returns:
it merges the fields into that record, the updated record is what a
subsequent `findById` sees, no record is physically removed, and every
other record survives unchanged. -/
theorem update_spec (id : String) (u : UpdateFields) (now : String) :
    ∀ (projects : List Project) (p : Project), Store.findById projects id = some p →
      ∃ projects2,
        Store.update id u now projects = some (applyUpdates p u now, projects2) ∧
        Store.findById projects2 id = some (applyUpdates p u now) ∧
        projects2.length = projects.length ∧
        ∀ x ∈ projects, x = p ∨ x ∈ projects2 := by
  intro projects
  induction projects with
  | nil => intro p h; simp [Store.findById] at h
  | cons q ps ih =>
    intro p hfind
    by_cases hq : q.id = id
    · have hpq : p = q := by
        unfold Store.findById at hfind
        rw [List.find?_cons_of_pos _ (by simp [hq])] at hfind
        exact (Option.some_inj.mp hfind).symm
      subst hpq
      refine ⟨applyUpdates p u now :: ps, ?_, ?_, by simp, ?_⟩
      · unfold Store.update
        rw [if_pos hq]
      · unfold Store.findById
        rw [List.find?_cons_of_pos _ (by simp [applyUpdates, hq])]
      · intro x hx
        rcases List.mem_cons.mp hx with h | h
        · exact Or.inl h
        · exact Or.inr (List.mem_cons_of_mem _ h)
    · have hfind' : Store.findById ps id = some p := by
        unfold Store.findById at hfind ⊢
        rwa [List.find?_cons_of_neg _ (by simp [hq])] at hfind
      obtain ⟨ps2, hupd, hfind2, hlen, hmem⟩ := ih p hfind'
      refine ⟨q :: ps2, ?_, ?_, by simp [hlen], ?_⟩
      · unfold Store.update
        rw [if_neg hq, hupd]
      · unfold Store.findById at hfind2 ⊢
        rw [List.find?_cons_of_neg _ (by simp [hq])]
        exact hfind2
      · intro x hx
        rcases List.mem_cons.mp hx with h | h
        · exact Or.inr (by simp [h])
        · rcases hmem x h with h' | h'
          · exact Or.inl h'
          · exact Or.inr (List.mem_cons_of_mem _ h')

theorem validateStatusUpdate_ok (s : String) (hs : s ∈ VALID_STATUSES) :
    validateStatusUpdate { status := some s } = .ok s := by
  simp only [VALID_STATUSES, List.mem_cons, List.not_mem_nil, or_false] at hs
  rcases hs with rfl | rfl | rfl <;> rfl

/-- Reduction of `updateProjectStatus` past validation and lookup, split
on whether the requested status is in the allowlist entry. -/
theorem updateStatus_reduce (projects : List Project) (id : String) (p : Project)
    (newStatus now : String)
    (hfind : Store.findById projects id = some p) (hnd : p.isDeleted = false)
    (hnew : newStatus ∈ VALID_STATUSES) (hne : ¬ p.status = newStatus)
    (allowed : List String) (hallow : ALLOWED_TRANSITIONS p.status = some allowed) :
    (allowed.contains newStatus = true →
      ∃ projects2, updateProjectStatus projects id { status := some newStatus } now =
        .ok (applyUpdates p { status := some newStatus } now, projects2)) ∧
    (allowed.contains newStatus = false →
      updateProjectStatus projects id { status := some newStatus } now =
        .error (invalidTransitionError p.status newStatus)) := by
  have hval := validateStatusUpdate_ok newStatus hnew
  have hget := (getProjectById_eq_ok projects id p).mpr ⟨hfind, hnd⟩
  obtain ⟨projects2, hupd, -, -, -⟩ :=
    update_spec id { status := some newStatus } now projects p hfind
  constructor
  · intro hc
    refine ⟨projects2, ?_⟩
    simp only [updateProjectStatus, hval, hget, if_neg hne, hallow, hc]
    simp [hupd]
  · intro hc
    simp only [updateProjectStatus, hval, hget, if_neg hne, hallow, hc]
    simp

/-- C1: for a stored, non-deleted project and a requested status different
from its current one, `updateProjectStatus` succeeds exactly when the
requested status is in the `ALLOWED_TRANSITIONS` entry of the current
status, and otherwise fails with the `INVALID_STATUS_TRANSITION` error
whose message carries both statuses; the `completed` entry is empty, so
no request moves a record out of `completed`. -/
theorem c1_transition_allowlist (projects : List Project) (id : String) (p : Project)
    (newStatus now : String)
    (hfind : Store.findById projects id = some p) (hnd : p.isDeleted = false)
    (hcur : p.status ∈ VALID_STATUSES) (hnew : newStatus ∈ VALID_STATUSES)
    (hne : newStatus ≠ p.status) :
    ((∃ projects2, updateProjectStatus projects id { status := some newStatus } now =
        .ok (applyUpdates p { status := some newStatus } now, projects2)) ↔
      newStatus ∈ (ALLOWED_TRANSITIONS p.status).getD []) ∧
    (newStatus ∉ (ALLOWED_TRANSITIONS p.status).getD [] →
      updateProjectStatus projects id { status := some newStatus } now =
        .error (invalidTransitionError p.status newStatus)) ∧
    (invalidTransitionError p.status newStatus).code = "INVALID_STATUS_TRANSITION" ∧
    (invalidTransitionError p.status newStatus).message =
      "Cannot transition from \x27" ++ p.status ++ "\x27 to \x27" ++ newStatus ++ "\x27" ∧
    (p.status = "completed" → (ALLOWED_TRANSITIONS p.status).getD [] = []) := by
  have hne' : ¬ p.status = newStatus := fun h => hne h.symm
  have hsome : ∃ allowed, ALLOWED_TRANSITIONS p.status = some allowed := by
    simp only [VALID_STATUSES, List.mem_cons, List.not_mem_nil, or_false] at hcur
    rcases hcur with h | h | h
    · exact ⟨["on_hold", "completed"], by rw [h]; rfl⟩
    · exact ⟨["active", "completed"], by rw [h]; rfl⟩
    · exact ⟨[], by rw [h]; rfl⟩
  obtain ⟨allowed, hallow⟩ := hsome
  obtain ⟨hyes, hno⟩ :=
    updateStatus_reduce projects id p newStatus now hfind hnd hnew hne' allowed hallow
  have hmem_iff : newStatus ∈ (ALLOWED_TRANSITIONS p.status).getD [] ↔
      allowed.contains newStatus = true := by
    rw [hallow]
    simp [List.elem_iff]
  refine ⟨?_, ?_, rfl, rfl, ?_⟩
  · constructor
    · intro ⟨projects2, hok⟩
      by_cases hc : allowed.contains newStatus
      · exact hmem_iff.mpr hc
      · rw [hno (Bool.not_eq_true _ ▸ hc)] at hok
        cases hok
    · intro hm
      exact hyes (hmem_iff.mp hm)
  · intro hm
    exact hno (Bool.not_eq_true _ ▸ fun hc => hm (hmem_iff.mpr hc))
  · intro hcomp
    rw [hcomp]
    rfl

/-- Witness for C1: the completed record `sampleCompleted` rejects the
transition back to `active`. -/
theorem c1_transition_allowlist_witness :
    (Store.findById [sampleCompleted] "p2" = some sampleCompleted ∧
      sampleCompleted.isDeleted = false ∧
      sampleCompleted.status ∈ VALID_STATUSES ∧ "active" ∈ VALID_STATUSES ∧
      "active" ≠ sampleCompleted.status) ∧
    (((∃ projects2, updateProjectStatus [sampleCompleted] "p2" { status := some "active" } "T2" =
        .ok (applyUpdates sampleCompleted { status := some "active" } "T2", projects2)) ↔
      "active" ∈ (ALLOWED_TRANSITIONS sampleCompleted.status).getD []) ∧
    ("active" ∉ (ALLOWED_TRANSITIONS sampleCompleted.status).getD [] →
      updateProjectStatus [sampleCompleted] "p2" { status := some "active" } "T2" =
        .error (invalidTransitionError sampleCompleted.status "active")) ∧
    (invalidTransitionError sampleCompleted.status "active").code = "INVALID_STATUS_TRANSITION" ∧
    (invalidTransitionError sampleCompleted.status "active").message =
      "Cannot transition from \x27" ++ sampleCompleted.status ++ "\x27 to \x27" ++ "active" ++ "\x27" ∧
    (sampleCompleted.status = "completed" → (ALLOWED_TRANSITIONS sampleCompleted.status).getD [] = [])) :=
  ⟨⟨rfl, rfl, by decide, by decide, by decide⟩,
    c1_transition_allowlist [sampleCompleted] "p2" sampleCompleted "active" "T2"
      rfl rfl (by decide) (by decide) (by decide)⟩

/-- C4: requesting the status a stored, non-deleted record already has is
a no-op: `updateProjectStatus` returns the record unchanged (same
`updatedAt`) and the store state unchanged. -/
theorem c4_same_status_noop (projects : List Project) (id : String) (p : Project)
    (now : String)
    (hfind : Store.findById projects id = some p) (hnd : p.isDeleted = false)
    (hvalid : p.status ∈ VALID_STATUSES) :
    updateProjectStatus projects id { status := some p.status } now = .ok (p, projects) := by
  have hval := validateStatusUpdate_ok p.status hvalid
  have hget := (getProjectById_eq_ok projects id p).mpr ⟨hfind, hnd⟩
  simp [updateProjectStatus, hval, hget]

/-- Witness for C4 at a concrete one-record store. -/
theorem c4_same_status_noop_witness :
    (Store.findById [sampleActive] "p1" = some sampleActive ∧
      sampleActive.isDeleted = false ∧ sampleActive.status ∈ VALID_STATUSES) ∧
    updateProjectStatus [sampleActive] "p1" { status := some sampleActive.status } "T2" =
      .ok (sampleActive, [sampleActive]) :=
  ⟨⟨rfl, rfl, by decide⟩,
    c4_same_status_noop [sampleActive] "p1" sampleActive "T2" rfl rfl (by decide)⟩

/-- C10: when the status body is missing or carries a value outside the
enum, `updateProjectStatus` fails with the `VALIDATION_ERROR` — never a
not-found error — for every id, and the store state is unchanged. -/
theorem c10_validation_precedes_existence (projects : List Project) (id : String)
    (body : StatusBody) (now : String)
    (hbad : body.status = none ∨ ∃ s, body.status = some s ∧ s ∉ VALID_STATUSES) :
    updateProjectStatus projects id body now =
      .error { message := "status is required and must be one of: active, on_hold, completed"
               statusCode := 400, code := "VALIDATION_ERROR" } ∧
    applyOp projects (Op.statusOp id body now) = projects := by
  obtain ⟨bs⟩ := body
  have hval : validateStatusUpdate { status := bs } =
      .error { message := "status is required and must be one of: active, on_hold, completed"
               statusCode := 400, code := "VALIDATION_ERROR" } := by
    rcases hbad with h | ⟨s, hs, hmem⟩
    · simp only at h
      rw [h]
      rfl
    · simp only at hs
      subst hs
      by_cases he : s = ""
      · subst he; rfl
      · have hc : VALID_STATUSES.contains s = false := by
          rcases hcon : VALID_STATUSES.contains s with _ | _
          · rfl
          · exact absurd (List.elem_iff.mp hcon) hmem
        have hne : s.isEmpty = false := by
          rcases hie : s.isEmpty with _ | _
          · rfl
          · exact absurd ((String.isEmpty_iff s).mp hie) he
        simp [validateStatusUpdate, truthy, hne, hc, hmem]
  refine ⟨?_, ?_⟩
  · simp [updateProjectStatus, hval]
  · simp [applyOp, updateProjectStatus, hval]

/-- Witness for C10: an unknown status value fails validation even when
the id exists. -/
theorem c10_validation_precedes_existence_witness :
    (({ status := some "archived" } : StatusBody).status = none ∨
      ∃ s, ({ status := some "archived" } : StatusBody).status = some s ∧ s ∉ VALID_STATUSES) ∧
    (updateProjectStatus [sampleActive] "p1" { status := some "archived" } "T2" =
      .error { message := "status is required and must be one of: active, on_hold, completed"
               statusCode := 400, code := "VALIDATION_ERROR" } ∧
    applyOp [sampleActive] (Op.statusOp "p1" { status := some "archived" } "T2") = [sampleActive]) :=
  ⟨Or.inr ⟨"archived", rfl, by decide⟩,
    c10_validation_precedes_existence [sampleActive] "p1" { status := some "archived" } "T2"
      (Or.inr ⟨"archived", rfl, by decide⟩)⟩

/-- C5: `deleteProject` succeeds exactly when the id resolves to a
non-deleted record; on success it soft-deletes that record in place via
`Store.update` (same number of records, record still findable with
`isDeleted = true`), and a second delete of the same id fails with the
`PROJECT_NOT_FOUND` error, as does deleting an absent or already-deleted
id. -/
theorem c5_delete_semantics (projects : List Project) (id : String) (now now2 : String) :
    ((∃ projects2, deleteProject projects id now = .ok projects2) ↔
      ∃ p, Store.findById projects id = some p ∧ p.isDeleted = false) ∧
    (∀ p, Store.findById projects id = some p → p.isDeleted = false →
      ∃ projects2,
        deleteProject projects id now = .ok projects2 ∧
        Store.findById projects2 id = some (applyUpdates p { isDeleted := some true } now) ∧
        (applyUpdates p { isDeleted := some true } now).isDeleted = true ∧
        projects2.length = projects.length ∧
        deleteProject projects2 id now2 = .error (notFoundError id)) ∧
    ((Store.findById projects id = none ∨
        ∃ p, Store.findById projects id = some p ∧ p.isDeleted = true) →
      deleteProject projects id now = .error (notFoundError id)) := by
  have herr : ∀ (l : List Project) (t : String),
      (Store.findById l id = none ∨ ∃ p, Store.findById l id = some p ∧ p.isDeleted = true) →
      deleteProject l id t = .error (notFoundError id) := by
    intro l t hcase
    have hget : getProjectById l id = .error (notFoundError id) :=
      (getProjectById_eq_err l id (notFoundError id)).mpr ⟨rfl, hcase⟩
    simp [deleteProject, hget]
  have hsucc : ∀ p, Store.findById projects id = some p → p.isDeleted = false →
      ∃ projects2,
        deleteProject projects id now = .ok projects2 ∧
        Store.findById projects2 id = some (applyUpdates p { isDeleted := some true } now) ∧
        (applyUpdates p { isDeleted := some true } now).isDeleted = true ∧
        projects2.length = projects.length ∧
        deleteProject projects2 id now2 = .error (notFoundError id) := by
    intro p hfind hnd
    have hget := (getProjectById_eq_ok projects id p).mpr ⟨hfind, hnd⟩
    obtain ⟨projects2, hupd, hfind2, hlen, -⟩ :=
      update_spec id { isDeleted := some true } now projects p hfind
    refine ⟨projects2, ?_, hfind2, rfl, hlen, ?_⟩
    · simp [deleteProject, hget, hupd]
    · exact herr projects2 now2 (Or.inr ⟨_, hfind2, rfl⟩)
  refine ⟨⟨?_, ?_⟩, hsucc, herr projects now⟩
  · rintro ⟨projects2, hok⟩
    cases hfind : Store.findById projects id with
    | none => rw [herr projects now (Or.inl hfind)] at hok; cases hok
    | some p =>
      cases hd : p.isDeleted with
      | false => exact ⟨p, rfl, hd⟩
      | true => rw [herr projects now (Or.inr ⟨p, hfind, hd⟩)] at hok; cases hok
  · rintro ⟨p, hfind, hnd⟩
    obtain ⟨projects2, h1, -, -, -, -⟩ := hsucc p hfind hnd
    exact ⟨projects2, h1⟩

/-- Witness for C5: deleting `sampleActive` once succeeds and marks it
deleted; deleting the same id again fails with the not-found error. -/
theorem c5_delete_semantics_witness :
    (Store.findById [sampleActive] "p1" = some sampleActive ∧
      sampleActive.isDeleted = false) ∧
    (∃ projects2,
      deleteProject [sampleActive] "p1" "T2" = .ok projects2 ∧
      Store.findById projects2 "p1" = some (applyUpdates sampleActive { isDeleted := some true } "T2") ∧
      (applyUpdates sampleActive { isDeleted := some true } "T2").isDeleted = true ∧
      projects2.length = [sampleActive].length ∧
      deleteProject projects2 "p1" "T3" = .error (notFoundError "p1")) :=
  ⟨⟨rfl, rfl⟩, (c5_delete_semantics [sampleActive] "p1" "T2" "T3").2.1 sampleActive rfl rfl⟩

/-- Dissection of a successful `updateProjectStatus`: either it was the
same-status no-op (state unchanged), or it went through `Store.update`
on a record that `findById` resolves and that is not soft-deleted. -/
theorem updateProjectStatus_ok_cases (projects : List Project) (i : String) (body : StatusBody)
    (now : String) (ret : Project) (projects2 : List Project)
    (h : updateProjectStatus projects i body now = .ok (ret, projects2)) :
    projects2 = projects ∨
      ∃ p u, Store.findById projects i = some p ∧ p.isDeleted = false ∧
        Store.update i u now projects = some (ret, projects2) := by
  unfold updateProjectStatus at h
  split at h
  · cases h
  · split at h
    · cases h
    · next project hget =>
      obtain ⟨hfind, hnd⟩ := (getProjectById_eq_ok projects i project).mp hget
      split at h
      · cases h
        exact Or.inl rfl
      · split at h
        · cases h
        · split at h
          · cases h
          · split at h
            · next updated p2 hupd =>
              cases h
              exact Or.inr ⟨project, _, hfind, hnd, hupd⟩
            · cases h
              exact Or.inl rfl

/-- Dissection of a successful `deleteProject`: it went through
`Store.update` on a record that `findById` resolves and that is not
soft-deleted, or hit the unreachable fallback (state unchanged). -/
theorem deleteProject_ok_cases (projects : List Project) (i now : String)
    (projects2 : List Project)
    (h : deleteProject projects i now = .ok projects2) :
    projects2 = projects ∨
      ∃ p q, Store.findById projects i = some p ∧ p.isDeleted = false ∧
        Store.update i { isDeleted := some true } now projects = some (q, projects2) := by
  unfold deleteProject at h
  split at h
  · cases h
  · next project hget =>
    obtain ⟨hfind, hnd⟩ := (getProjectById_eq_ok projects i project).mp hget
    split at h
    · next q qs hupd =>
      cases h
      exact Or.inr ⟨project, q, hfind, hnd, hupd⟩
    · cases h
      exact Or.inl rfl

/-- A soft-deleted record survives any single service operation
unchanged: no operation rewrites or removes it. -/
theorem applyOp_preserves_deleted (projects : List Project) (op : Op) (x : Project)
    (hx : x ∈ projects) (hdel : x.isDeleted = true) : x ∈ applyOp projects op := by
  cases op with
  | createOp body freshId now =>
    cases hv : validateCreateProject body with
    | error e => simpa [applyOp, createProject, hv] using hx
    | ok d =>
      simp [applyOp, createProject, hv, Store.create]
      exact Or.inl hx
  | listOp q => exact hx
  | getOp i => exact hx
  | statusOp i body now =>
    cases h : updateProjectStatus projects i body now with
    | error e => simpa [applyOp, h] using hx
    | ok r =>
      obtain ⟨ret, projects2⟩ := r
      have hsub : x ∈ projects2 := by
        rcases updateProjectStatus_ok_cases projects i body now ret projects2 h with
          rfl | ⟨p, u, hfind, hnd, hupd⟩
        · exact hx
        · obtain ⟨p2, hupd2, -, -, hmem⟩ := update_spec i u now projects p hfind
          rw [hupd2] at hupd
          cases hupd
          rcases hmem x hx with rfl | hx2
          · rw [hnd] at hdel; cases hdel
          · exact hx2
      simpa [applyOp, h] using hsub
  | deleteOp i now =>
    cases h : deleteProject projects i now with
    | error e => simpa [applyOp, h] using hx
    | ok projects2 =>
      have hsub : x ∈ projects2 := by
        rcases deleteProject_ok_cases projects i now projects2 h with
          rfl | ⟨p, q, hfind, hnd, hupd⟩
        · exact hx
        · obtain ⟨p2, hupd2, -, -, hmem⟩ :=
            update_spec i { isDeleted := some true } now projects p hfind
          rw [hupd2] at hupd
          cases hupd
          rcases hmem x hx with rfl | hx2
          · rw [hnd] at hdel; cases hdel
          · exact hx2
      simpa [applyOp, h] using hsub

/-- C3: soft delete is monotone — once a record is in the store with
`isDeleted = true`, it is still in the store, unchanged (flag still
`true`), after any sequence of service operations; no operation resets
the flag. -/
theorem c3_soft_delete_monotonic (ops : List Op) (projects : List Project) (x : Project)
    (hx : x ∈ projects) (hdel : x.isDeleted = true) :
    x ∈ runOps projects ops := by
  induction ops generalizing projects with
  | nil => exact hx
  | cons op rest ih =>
    exact ih (applyOp projects op) (applyOp_preserves_deleted projects op x hx hdel)

/-- Witness for C3: the deleted record survives a create, a failed
revival attempt, a delete of another record and a list. -/
theorem c3_soft_delete_monotonic_witness :
    (sampleDeleted ∈ [sampleActive, sampleDeleted] ∧ sampleDeleted.isDeleted = true) ∧
    sampleDeleted ∈ runOps [sampleActive, sampleDeleted]
      [Op.statusOp "p3" { status := some "active" } "T2",
       Op.deleteOp "p1" "T3",
       Op.listOp {},
       Op.createOp { name := some "N", clientName := some "C", startDate := some "2026-02-02" } "p9" "T4"] :=
  ⟨⟨by decide, rfl⟩,
    c3_soft_delete_monotonic
      [Op.statusOp "p3" { status := some "active" } "T2",
       Op.deleteOp "p1" "T3",
       Op.listOp {},
       Op.createOp { name := some "N", clientName := some "C", startDate := some "2026-02-02" } "p9" "T4"]
      [sampleActive, sampleDeleted] sampleDeleted (by decide) rfl⟩

/-- A create body passing every validation rule. -/
def bodyGood : CreateBody :=
  { name := some "Website", clientName := some "Acme",
    startDate := some "2026-06-01", endDate := some "2026-06-01" }

/-- A create body violating two rules at once: blank name and an
`endDate` before `startDate`. -/
def bodyBad : CreateBody :=
  { name := some " ", clientName := some "Acme",
    startDate := some "2026-06-01", endDate := some "2026-01-01" }

/-- C6: for any input that passes create validation, the created record
has `isDeleted = false`, `createdAt = updatedAt = now`, the freshly
assigned id, and the given status (defaulting to `active` when the input
gave none); the record is appended to the store. -/
theorem c6_create_postcondition (projects : List Project) (body : CreateBody)
    (freshId now : String) (d : ProjectData)
    (hok : validateCreateProject body = .ok d) :
    ∃ p, createProject projects body freshId now = .ok (p, projects ++ [p]) ∧
      p.isDeleted = false ∧ p.createdAt = now ∧ p.updatedAt = now ∧
      p.id = freshId ∧
      p.status = (match body.status with | some s => s | none => "active") := by
  refine ⟨(Store.create projects d freshId now).1, ?_, rfl, rfl, rfl, rfl, ?_⟩
  · simp [createProject, hok, Store.create]
  · have hempty : (createErrors body).isEmpty = true := by
      by_cases h : (createErrors body).isEmpty = true
      · exact h
      · exfalso
        simp only [validateCreateProject] at hok
        rw [if_neg h] at hok
        cases hok
    have herr : createErrors body = [] := List.isEmpty_iff.mp hempty
    simp only [validateCreateProject] at hok
    rw [if_pos hempty] at hok
    cases hok
    cases hbs : body.status with
    | none =>
      simp [Store.create, truthy, hbs]
    | some s =>
      have hs : s ∈ VALID_STATUSES := by
        simp [createErrors, hbs] at herr
        obtain ⟨-, -, hs, -, -⟩ := herr
        exact hs
      have hne : s.isEmpty = false := by
        simp only [VALID_STATUSES, List.mem_cons, List.not_mem_nil, or_false] at hs
        rcases hs with rfl | rfl | rfl <;> rfl
      simp [Store.create, truthy, hbs, hne]

/-- Witness for C6 at a concrete valid body. -/
theorem c6_create_postcondition_witness :
    validateCreateProject bodyGood =
      .ok { name := "Website", clientName := "Acme", status := "active",
            startDate := "2026-06-01", endDate := some "2026-06-01" } ∧
    (∃ p, createProject [] bodyGood "id9" "T0" = .ok (p, [] ++ [p]) ∧
      p.isDeleted = false ∧ p.createdAt = "T0" ∧ p.updatedAt = "T0" ∧
      p.id = "id9" ∧
      p.status = (match bodyGood.status with | some s => s | none => "active")) :=
  ⟨rfl, c6_create_postcondition [] bodyGood "id9" "T0" _ rfl⟩

/-! Decomposition of `String.intercalate` around any of its pieces. -/

theorem intercalate_go_split (sep : String) :
    ∀ (as : List String) (acc : String),
      ∃ rest, String.intercalate.go acc sep as = acc ++ rest := by
  intro as
  induction as with
  | nil => intro acc; exact ⟨"", (String.append_empty acc).symm⟩
  | cons b bs ih =>
    intro acc
    obtain ⟨rest, hrest⟩ := ih (acc ++ sep ++ b)
    refine ⟨sep ++ b ++ rest, ?_⟩
    have h1 : String.intercalate.go acc sep (b :: bs) =
        String.intercalate.go (acc ++ sep ++ b) sep bs := rfl
    rw [h1, hrest]
    simp [String.append_assoc]

theorem intercalate_go_mem_split (sep : String) :
    ∀ (as : List String) (acc x : String), x ∈ as →
      ∃ u v, String.intercalate.go acc sep as = u ++ x ++ v := by
  intro as
  induction as with
  | nil => intro acc x hx; cases hx
  | cons b bs ih =>
    intro acc x hx
    rcases List.mem_cons.mp hx with rfl | hx2
    · obtain ⟨rest, hrest⟩ := intercalate_go_split sep bs (acc ++ sep ++ x)
      refine ⟨acc ++ sep, rest, ?_⟩
      have h1 : String.intercalate.go acc sep (x :: bs) =
          String.intercalate.go (acc ++ sep ++ x) sep bs := rfl
      rw [h1, hrest]
    · obtain ⟨u, v, huv⟩ := ih (acc ++ sep ++ b) x hx2
      have h1 : String.intercalate.go acc sep (b :: bs) =
          String.intercalate.go (acc ++ sep ++ b) sep bs := rfl
      exact ⟨u, v, by rw [h1, huv]⟩

theorem intercalate_mem_split (sep : String) (l : List String) (x : String) (hx : x ∈ l) :
    ∃ u v, String.intercalate sep l = u ++ x ++ v := by
  cases l with
  | nil => cases hx
  | cons a as =>
    rcases List.mem_cons.mp hx with rfl | hx2
    · obtain ⟨rest, hrest⟩ := intercalate_go_split sep as x
      refine ⟨"", rest, ?_⟩
      have h1 : String.intercalate sep (x :: as) = String.intercalate.go x sep as := rfl
      rw [h1, hrest, String.empty_append]
    · obtain ⟨u, v, huv⟩ := intercalate_go_mem_split sep as a x hx2
      have h1 : String.intercalate sep (a :: as) = String.intercalate.go a sep as := rfl
      exact ⟨u, v, by rw [h1, huv]⟩

set_option maxHeartbeats 1000000 in
/-- C7: create validation aggregates rather than failing fast — it fails
exactly when at least one rule is violated (blank name or clientName,
status outside the enum, missing or unparsable startDate, unparsable
endDate or endDate before startDate); the single `VALIDATION_ERROR`
message is the `"; "`-join of every violated rule's message and contains
each of them; an endDate equal to a valid startDate adds no violation. -/
theorem c7_create_validation_aggregated (body : CreateBody) :
    ((∃ e, validateCreateProject body = .error e) ↔
      ((!truthy body.name || jsTrim (body.name.getD "") == "") = true ∨
       (!truthy body.clientName || jsTrim (body.clientName.getD "") == "") = true ∨
       (body.status.isSome && !VALID_STATUSES.contains (body.status.getD "")) = true ∨
       truthy body.startDate = false ∨
       isValidISODate (body.startDate.getD "") = false ∨
       (∃ e0, body.endDate = some e0 ∧ isValidISODate e0 = false) ∨
       (∃ e0, body.endDate = some e0 ∧
         (truthy body.startDate && isValidISODate (body.startDate.getD "") &&
           decide ((parseISODate e0).getD 0 <
             (parseISODate (body.startDate.getD "")).getD 0)) = true))) ∧
    (∀ e, validateCreateProject body = .error e →
      e.code = "VALIDATION_ERROR" ∧ e.statusCode = 400 ∧
      e.message = String.intercalate "; " (createErrors body) ∧
      ∀ msg ∈ createErrors body, ∃ u v, e.message = u ++ msg ++ v) ∧
    (∀ s, body.startDate = some s → body.endDate = some s → isValidISODate s = true →
      createErrors body = createErrors { body with endDate := none }) := by
  refine ⟨?_, ?_, ?_⟩
  · have herr_iff : (∃ e, validateCreateProject body = .error e) ↔ createErrors body ≠ [] := by
      constructor
      · rintro ⟨e, he⟩ hnil
        simp only [validateCreateProject] at he
        rw [if_pos (List.isEmpty_iff.mpr hnil)] at he
        cases he
      · intro hne
        refine ⟨{ message := String.intercalate "; " (createErrors body),
                  statusCode := 400, code := "VALIDATION_ERROR" }, ?_⟩
        simp only [validateCreateProject]
        rw [if_neg (fun h => hne (List.isEmpty_iff.mp h))]
    rw [herr_iff]
    obtain ⟨bn, bc, bst, bsd, bed⟩ := body
    cases bed with
    | none =>
      by_cases h1 : (!truthy bn || jsTrim (bn.getD "") == "") = true <;>
      by_cases h2 : (!truthy bc || jsTrim (bc.getD "") == "") = true <;>
      by_cases h3 : (bst.isSome && !VALID_STATUSES.contains (bst.getD "")) = true <;>
      by_cases h4 : truthy bsd = true <;>
      by_cases h5 : isValidISODate (bsd.getD "") = true <;>
      simp_all [createErrors]
    | some e0 =>
      by_cases h1 : (!truthy bn || jsTrim (bn.getD "") == "") = true <;>
      by_cases h2 : (!truthy bc || jsTrim (bc.getD "") == "") = true <;>
      by_cases h3 : (bst.isSome && !VALID_STATUSES.contains (bst.getD "")) = true <;>
      by_cases h4 : truthy bsd = true <;>
      by_cases h5 : isValidISODate (bsd.getD "") = true <;>
      by_cases h6 : isValidISODate e0 = true <;>
      by_cases h7 : decide ((parseISODate e0).getD 0 < (parseISODate (bsd.getD "")).getD 0) = true <;>
      simp_all [createErrors]
  · intro e he
    have hne : (createErrors body).isEmpty = false := by
      by_cases h : (createErrors body).isEmpty = true
      · exfalso
        simp only [validateCreateProject] at he
        rw [if_pos h] at he
        cases he
      · exact Bool.not_eq_true _ ▸ h
    simp only [validateCreateProject] at he
    rw [if_neg (by simp [hne])] at he
    cases he
    refine ⟨rfl, rfl, rfl, ?_⟩
    intro msg hmsg
    exact intercalate_mem_split "; " (createErrors body) msg hmsg
  · intro s hsd hed hv
    obtain ⟨bn, bc, bst, bsd, bed⟩ := body
    simp only at hsd hed
    subst hsd
    subst hed
    simp [createErrors, hv, truthy, Nat.lt_irrefl]

/-- Witness for C7: `bodyBad` violates the name rule and the date-order
rule and both messages appear in the aggregated error; `bodyGood` has
`endDate = startDate` and incurs no endDate violation. -/
theorem c7_create_validation_aggregated_witness :
    (∃ e, validateCreateProject bodyBad = .error e ∧
      e.message = String.intercalate "; " (createErrors bodyBad) ∧
      ∀ msg ∈ createErrors bodyBad, ∃ u v, e.message = u ++ msg ++ v) ∧
    createErrors bodyGood = createErrors { bodyGood with endDate := none } := by
  refine ⟨?_, (c7_create_validation_aggregated bodyGood).2.2 "2026-06-01" rfl rfl (by decide)⟩
  have herr : validateCreateProject bodyBad =
      .error { message := "name is required and must be a non-empty string; endDate cannot be before startDate"
               statusCode := 400, code := "VALIDATION_ERROR" } := rfl
  obtain ⟨-, -, hmsg, hdecomp⟩ := (c7_create_validation_aggregated bodyBad).2.1 _ herr
  exact ⟨_, herr, hmsg, hdecomp⟩

theorem isEmpty_false_of_ne (s : String) (h : s ≠ "") : s.isEmpty = false := by
  cases hie : s.isEmpty with
  | false => rfl
  | true => exact absurd ((String.isEmpty_iff s).mp hie) h

/-- C2: a record appears in `findAll`'s output exactly when it is a
stored, non-deleted record that passes the optional status equality
filter and the optional case-insensitive substring filter on name or
clientName — the two filters compose with AND semantics. -/
theorem c2_list_filter_correctness (projects : List Project) (r : Project)
    (status search sort order : Option String)
    (hstatus : status = none ∨ ∃ s, status = some s ∧ s ∈ VALID_STATUSES)
    (hsearch : search ≠ some "") :
    r ∈ Store.findAll projects
        { status := status, search := search, sort := sort, order := order } ↔
      (r ∈ projects ∧ r.isDeleted = false ∧
        (∀ s, status = some s → r.status = s) ∧
        (∀ q, search = some q →
          (seqIncludes (lowerChars q) (lowerChars r.name) ||
           seqIncludes (lowerChars q) (lowerChars r.clientName)) = true)) := by
  simp only [Store.findAll]
  rw [List.mem_insertionSort]
  rcases hstatus with rfl | ⟨s, rfl, hs⟩ <;> rcases hqe : search with _ | q
  · simp [truthy, List.mem_filter]
  · subst hqe
    have hq : q.isEmpty = false :=
      isEmpty_false_of_ne q (fun h => hsearch (by rw [h]))
    simp [truthy, hq, List.mem_filter, and_assoc]
    tauto
  · have hsne : s.isEmpty = false := by
      simp only [VALID_STATUSES, List.mem_cons, List.not_mem_nil, or_false] at hs
      rcases hs with rfl | rfl | rfl <;> rfl
    simp [truthy, hsne, List.mem_filter, and_assoc]
    tauto
  · subst hqe
    have hsne : s.isEmpty = false := by
      simp only [VALID_STATUSES, List.mem_cons, List.not_mem_nil, or_false] at hs
      rcases hs with rfl | rfl | rfl <;> rfl
    have hq : q.isEmpty = false :=
      isEmpty_false_of_ne q (fun h => hsearch (by rw [h]))
    simp [truthy, hsne, hq, List.mem_filter, and_assoc]
    tauto

/-- Witness for C2 on a two-record store with both filters active. -/
theorem c2_list_filter_correctness_witness :
    ((some "active" : Option String) = none ∨
      ∃ s, (some "active" : Option String) = some s ∧ s ∈ VALID_STATUSES) ∧
    (some "acm" : Option String) ≠ some "" ∧
    (sampleActive ∈ Store.findAll [sampleActive, sampleCompleted]
        { status := some "active", search := some "acm", sort := none, order := none } ↔
      (sampleActive ∈ [sampleActive, sampleCompleted] ∧ sampleActive.isDeleted = false ∧
        (∀ s, (some "active" : Option String) = some s → sampleActive.status = s) ∧
        (∀ q, (some "acm" : Option String) = some q →
          (seqIncludes (lowerChars q) (lowerChars sampleActive.name) ||
           seqIncludes (lowerChars q) (lowerChars sampleActive.clientName)) = true))) :=
  ⟨Or.inr ⟨"active", rfl, by decide⟩, by decide,
    c2_list_filter_correctness [sampleActive, sampleCompleted] sampleActive
      (some "active") (some "acm") none none
      (Or.inr ⟨"active", rfl, by decide⟩) (by decide)⟩

theorem findAllLe_total (sf od : String) (a b : Project) :
    findAllLe sf od a b = true ∨ findAllLe sf od b a = true := by
  by_cases hc : od = "asc" <;> simp [findAllLe, hc] <;> exact le_total _ _

theorem findAllLe_trans (sf od : String) (a b c : Project)
    (h1 : findAllLe sf od a b = true) (h2 : findAllLe sf od b c = true) :
    findAllLe sf od a c = true := by
  by_cases hc : od = "asc"
  · simp only [findAllLe, hc, if_true, decide_eq_true_eq] at h1 h2 ⊢
    exact le_trans h1 h2
  · simp only [findAllLe, hc, if_false, decide_eq_true_eq] at h1 h2 ⊢
    exact le_trans h2 h1

/-- C8: with `sort=startDate, order=asc` the output of `findAll` is
non-decreasing under lexicographic comparison of the `startDate` strings;
with no sort/order given it is non-increasing by `createdAt`; and in both
cases the sort is stable — records with equal sort keys keep the relative
order they had among the surviving (non-deleted) records. -/
theorem c8_sort_correct_and_stable (projects : List Project) :
    List.Pairwise (fun a b : Project => strKey a.startDate ≤ strKey b.startDate)
      (Store.findAll projects { sort := some "startDate", order := some "asc" }) ∧
    List.Pairwise (fun a b : Project => strKey b.createdAt ≤ strKey a.createdAt)
      (Store.findAll projects {}) ∧
    (∀ a b : Project, a.startDate = b.startDate →
      List.Sublist [a, b] (projects.filter (fun p => !p.isDeleted)) →
      List.Sublist [a, b]
        (Store.findAll projects { sort := some "startDate", order := some "asc" })) ∧
    (∀ a b : Project, a.createdAt = b.createdAt →
      List.Sublist [a, b] (projects.filter (fun p => !p.isDeleted)) →
      List.Sublist [a, b] (Store.findAll projects {})) := by
  have hred1 : Store.findAll projects { sort := some "startDate", order := some "asc" } =
      List.insertionSort (fun a b => findAllLe "startDate" "asc" a b = true)
        (projects.filter (fun p => !p.isDeleted)) := rfl
  have hred2 : Store.findAll projects ({} : ListQuery) =
      List.insertionSort (fun a b => findAllLe "createdAt" "desc" a b = true)
        (projects.filter (fun p => !p.isDeleted)) := rfl
  haveI : IsTotal Project (fun a b => findAllLe "startDate" "asc" a b = true) :=
    ⟨fun a b => findAllLe_total _ _ a b⟩
  haveI : IsTrans Project (fun a b => findAllLe "startDate" "asc" a b = true) :=
    ⟨fun a b c => findAllLe_trans _ _ a b c⟩
  haveI : IsTotal Project (fun a b => findAllLe "createdAt" "desc" a b = true) :=
    ⟨fun a b => findAllLe_total _ _ a b⟩
  haveI : IsTrans Project (fun a b => findAllLe "createdAt" "desc" a b = true) :=
    ⟨fun a b c => findAllLe_trans _ _ a b c⟩
  refine ⟨?_, ?_, ?_, ?_⟩
  · rw [hred1]
    refine List.Pairwise.imp ?_
      (List.sorted_insertionSort (fun a b => findAllLe "startDate" "asc" a b = true)
        (projects.filter (fun p => !p.isDeleted)))
    intro a b h
    simpa [findAllLe] using h
  · rw [hred2]
    refine List.Pairwise.imp ?_
      (List.sorted_insertionSort (fun a b => findAllLe "createdAt" "desc" a b = true)
        (projects.filter (fun p => !p.isDeleted)))
    intro a b h
    simpa [findAllLe] using h
  · intro a b hab hsub
    rw [hred1]
    refine List.pair_sublist_insertionSort ?_ hsub
    simp [findAllLe, hab]
  · intro a b hab hsub
    rw [hred2]
    refine List.pair_sublist_insertionSort ?_ hsub
    simp [findAllLe, hab]

/-- Two non-deleted records sharing a `startDate` sort key, inserted in
this order. -/
def sortA : Project := { sampleActive with id := "s1", createdAt := "2026-01-03T00:00:00.000Z" }

/-- See `sortA`. -/
def sortB : Project := { sampleActive with id := "s2", createdAt := "2026-01-04T00:00:00.000Z" }

/-- Witness for C8: the equal-key pair keeps its insertion order in the
`startDate`-ascending output. -/
theorem c8_sort_correct_and_stable_witness :
    (sortA.startDate = sortB.startDate ∧
      List.Sublist [sortA, sortB] ([sortA, sortB].filter (fun p => !p.isDeleted))) ∧
    List.Sublist [sortA, sortB]
      (Store.findAll [sortA, sortB] { sort := some "startDate", order := some "asc" }) :=
  ⟨⟨rfl, by
      rw [show ([sortA, sortB].filter (fun p => !p.isDeleted)) = [sortA, sortB] from rfl]⟩,
    (c8_sort_correct_and_stable [sortA, sortB]).2.2.1 sortA sortB rfl (by
      rw [show ([sortA, sortB].filter (fun p => !p.isDeleted)) = [sortA, sortB] from rfl])⟩

/-- C9 counterexample: the claim says the list operation fails whenever
`status` is present but not one of the three enum values; the empty
string is present and not a valid status, yet `listProjects` succeeds
(JS truthiness skips validation of empty-string parameters). -/
theorem c9_counterexample_empty_status :
    VALID_STATUSES.contains "" = false ∧
    listProjects [] { status := some "" } = .ok [] :=
  ⟨rfl, rfl⟩

/-- C9 (amended): the list operation fails with the parameter-naming
`VALIDATION_ERROR` exactly when `status`, `sort` or `order` is present
*non-empty* and outside its allowed values (checked in that order;
empty-string parameters are treated as absent); when all given values
are valid it delegates to `Store.findAll`; and at the store level an
unrecognized sort field falls back to `createdAt`. -/
theorem c9_list_query_validation (projects : List Project) (query : ListQuery) :
    ((truthy query.status && !VALID_STATUSES.contains (query.status.getD "")) = true →
      listProjects projects query =
        .error { message := "Invalid status filter: " ++ query.status.getD "" ++
                            ". Must be one of: active, on_hold, completed"
                 statusCode := 400, code := "VALIDATION_ERROR" }) ∧
    ((truthy query.status && !VALID_STATUSES.contains (query.status.getD "")) = false →
     (truthy query.sort && !(["createdAt", "startDate"].contains (query.sort.getD ""))) = true →
      listProjects projects query =
        .error { message := "Invalid sort field: " ++ query.sort.getD "" ++
                            ". Must be one of: createdAt, startDate"
                 statusCode := 400, code := "VALIDATION_ERROR" }) ∧
    ((truthy query.status && !VALID_STATUSES.contains (query.status.getD "")) = false →
     (truthy query.sort && !(["createdAt", "startDate"].contains (query.sort.getD ""))) = false →
     (truthy query.order && !(["asc", "desc"].contains (query.order.getD ""))) = true →
      listProjects projects query =
        .error { message := "Invalid order: " ++ query.order.getD "" ++
                            ". Must be \x27asc\x27 or \x27desc\x27"
                 statusCode := 400, code := "VALIDATION_ERROR" }) ∧
    ((truthy query.status && !VALID_STATUSES.contains (query.status.getD "")) = false →
     (truthy query.sort && !(["createdAt", "startDate"].contains (query.sort.getD ""))) = false →
     (truthy query.order && !(["asc", "desc"].contains (query.order.getD ""))) = false →
      listProjects projects query = .ok (Store.findAll projects
        { status := query.status, search := query.search,
          sort := query.sort, order := query.order })) ∧
    (∀ s, ¬(s = "createdAt" ∨ s = "startDate") →
      Store.findAll projects
        { status := query.status, search := query.search,
          sort := some s, order := query.order } =
      Store.findAll projects
        { status := query.status, search := query.search,
          sort := some "createdAt", order := query.order }) := by
  have hbf : ∀ {b : Bool}, b = false → ¬ b = true := by
    intro b h
    simp [h]
  refine ⟨?_, ?_, ?_, ?_, ?_⟩
  · intro h1
    simp only [listProjects]
    rw [if_pos h1]
  · intro h1 h2
    simp only [listProjects]
    rw [if_neg (hbf h1), if_pos h2]
  · intro h1 h2 h3
    simp only [listProjects]
    rw [if_neg (hbf h1), if_neg (hbf h2), if_pos h3]
  · intro h1 h2 h3
    simp only [listProjects]
    rw [if_neg (hbf h1), if_neg (hbf h2), if_neg (hbf h3)]
  · intro s hs
    simp only [Store.findAll, Option.getD_some]
    rw [if_neg hs]
    simp

/-- Witness for C9 (amended): a bad sort field with a valid status is
rejected with the sort message; an all-valid query delegates to the
store. -/
theorem c9_list_query_validation_witness :
    ((truthy (some "active") && !VALID_STATUSES.contains ((some "active" : Option String).getD "")) = false ∧
     (truthy (some "name") && !(["createdAt", "startDate"].contains ((some "name" : Option String).getD ""))) = true) ∧
    listProjects [sampleActive] { status := some "active", sort := some "name" } =
      .error { message := "Invalid sort field: " ++ (some "name" : Option String).getD "" ++
                          ". Must be one of: createdAt, startDate"
               statusCode := 400, code := "VALIDATION_ERROR" } :=
  ⟨⟨rfl, rfl⟩,
    (c9_list_query_validation [sampleActive]
      { status := some "active", sort := some "name" }).2.1 rfl rfl⟩

end ProjectAPI
